import Mathlib

/-!
Verification of the crypto-dashboard client (src/src/App.js).

The JavaScript source is shallowly embedded: each state-updating function
becomes a pure Lean function on an explicit state; the wall clock
(`new Date().toLocaleTimeString()`) becomes an explicit `timeLabel`
argument; JS numbers carried by price and candle data are modelled as
rationals (no claim depends on floating-point arithmetic); `null` becomes
`Option.none`; the price-data object map becomes a function
`String → Option PriceEntry`, with JS spread update `{...prev, [k]: v}`
embedded as pointwise function update.
-/

namespace CryptoDash

/-- `maxDataPoints` from App.js line 8. -/
def maxDataPoints : Nat := 120

/-- A coin descriptor `{ id, name, ticker }` (App.js data model). -/
structure Coin where
  id : String
  name : String
  ticker : String
deriving DecidableEq, Repr

/-- A Time Series Entry `{ labels: [], data: [], error }` as stored in the
`priceData` state object (App.js line 18 and lines 41-51). -/
structure PriceEntry where
  labels : List String
  data : List (Option Rat)
  error : Bool
deriving DecidableEq, Repr

/-- The `priceData` state: a JS object mapping coin ids to entries,
embedded as a partial function. -/
abbrev PriceMap := String → Option PriceEntry

/-- The initial `priceData` state `{}` (App.js line 18). -/
def initialPriceData : PriceMap := fun _ => none

/-- JS `arr.slice(-n)`: the last `min n arr.length` elements of `arr`. -/
def sliceLast (n : Nat) (l : List α) : List α := l.drop (l.length - n)

/-- `updatePriceData` (App.js lines 41-51).  `timeLabel` stands for the
nondeterministic `new Date().toLocaleTimeString()`; the `price` argument is
the JS `price` parameter (a number or `null`); on `error = true` the code
appends the literal `null`.  The default `{ labels: [], data: [] }` object
has no `error` field, which the code never reads; it is rendered here with
`error := false`. -/
def updatePriceData (timeLabel : String) (prev : PriceMap) (coinId : String)
    (price : Option Rat) (error : Bool) : PriceMap :=
  let prevData := (prev coinId).getD { labels := [], data := [], error := false }
  let newLabels := sliceLast maxDataPoints (prevData.labels ++ [timeLabel])
  let newData :=
    if error then sliceLast maxDataPoints (prevData.data ++ [none])
    else sliceLast maxDataPoints (prevData.data ++ [price])
  fun k =>
    if k = coinId then some { labels := newLabels, data := newData, error := error }
    else prev k

/-- One call to `updatePriceData`: the coin id, the wall-clock label the
call observes, the price argument and the error flag. -/
structure UpdateCmd where
  timeLabel : String
  coinId : String
  price : Option Rat
  error : Bool

/-- A sequence of `updatePriceData` calls applied in order. -/
def applyUpdates : List UpdateCmd → PriceMap → PriceMap
  | [], pm => pm
  | c :: cs, pm => applyUpdates cs (updatePriceData c.timeLabel pm c.coinId c.price c.error)

/-- The per-entry invariant of the Time-Series Store: labels and values
have equal length, bounded by `maxDataPoints`. -/
def entryOk (e : PriceEntry) : Prop :=
  e.labels.length = e.data.length ∧ e.data.length ≤ maxDataPoints

/-- The store invariant: every stored entry satisfies `entryOk`. -/
def mapOk (pm : PriceMap) : Prop := ∀ cid e, pm cid = some e → entryOk e

theorem length_sliceLast (n : Nat) (l : List α) :
    (sliceLast n l).length = min n l.length := by
  simp only [sliceLast, List.length_drop]
  omega

theorem mapOk_updatePriceData (tl : String) (pm : PriceMap) (cid : String)
    (p : Option Rat) (err : Bool) (h : mapOk pm) :
    mapOk (updatePriceData tl pm cid p err) := by
  intro cid' e' he'
  simp only [updatePriceData] at he'
  split at he'
  · cases he'
    have hprev : ((pm cid).getD { labels := [], data := [], error := false }).labels.length
        = ((pm cid).getD { labels := [], data := [], error := false }).data.length := by
      cases hc : pm cid with
      | none => simp
      | some e => simpa using (h cid e hc).1
    constructor
    · split <;> simp [length_sliceLast, hprev]
    · split <;> simp [length_sliceLast]
  · exact h cid' e' he'

theorem mapOk_applyUpdates (cmds : List UpdateCmd) (pm : PriceMap) (h : mapOk pm) :
    mapOk (applyUpdates cmds pm) := by
  induction cmds generalizing pm with
  | nil => exact h
  | cons c cs ih =>
    exact ih _ (mapOk_updatePriceData c.timeLabel pm c.coinId c.price c.error h)

/-- C1: for every coin and every sequence of appends to its Time Series
Entry via `updatePriceData` (with or without the error flag), starting
from the empty `priceData` state, the entry's labels array and values
array have equal length, and that length never exceeds 120. -/
theorem timeSeries_lengths_invariant (cmds : List UpdateCmd) (coinId : String)
    (e : PriceEntry) (h : applyUpdates cmds initialPriceData coinId = some e) :
    e.labels.length = e.data.length ∧ e.data.length ≤ 120 := by
  have h0 : mapOk initialPriceData := by
    intro cid e' he'
    simp [initialPriceData] at he'
  exact mapOk_applyUpdates cmds initialPriceData h0 coinId e h

/-- Witness for C1: two concrete appends (one success, one error) to
coin "bitcoin" yield an entry with equal, bounded lengths. -/
theorem timeSeries_lengths_invariant_witness :
    applyUpdates [⟨"10:00:00", "bitcoin", some 100, false⟩,
        ⟨"10:00:05", "bitcoin", none, true⟩] initialPriceData "bitcoin"
      = some ⟨["10:00:00", "10:00:05"], [some 100, none], true⟩ ∧
    (["10:00:00", "10:00:05"].length = [some (100 : Rat), none].length ∧
      [some (100 : Rat), none].length ≤ 120) :=
  ⟨by decide,
   timeSeries_lengths_invariant
     [⟨"10:00:00", "bitcoin", some 100, false⟩, ⟨"10:00:05", "bitcoin", none, true⟩]
     "bitcoin" ⟨["10:00:00", "10:00:05"], [some 100, none], true⟩ (by decide)⟩

/-- C2: appending a sample to a Time Series Entry already holding 120
samples evicts exactly the oldest (label, value) pair: the result is the
old entry's last 119 pairs in order, followed by the new pair. -/
theorem timeSeries_fifo_eviction (tl : String) (pm : PriceMap) (cid : String)
    (p : Option Rat) (err : Bool) (e : PriceEntry) (hc : pm cid = some e)
    (hl : e.labels.length = 120) (hd : e.data.length = 120) :
    updatePriceData tl pm cid p err cid
      = some ⟨e.labels.drop 1 ++ [tl], e.data.drop 1 ++ [if err then none else p], err⟩ := by
  have slice_eq : ∀ (α : Type) (l : List α) (x : α), l.length = 120 →
      sliceLast maxDataPoints (l ++ [x]) = l.drop 1 ++ [x] := by
    intro α l x hlen
    simp only [sliceLast, maxDataPoints, List.length_append, List.length_singleton, hlen]
    have : (121 : Nat) - 120 = 1 := by omega
    rw [this, List.drop_append_of_le_length (by omega)]
  simp only [updatePriceData, hc, Option.getD_some, if_pos rfl]
  split
  · next herr =>
    rw [slice_eq _ e.labels tl hl, slice_eq _ e.data none hd]
  · next herr =>
    rw [slice_eq _ e.labels tl hl, slice_eq _ e.data p hd]

/-- Witness for C2: appending to a concrete full (120-sample) entry keeps
the last 119 pairs and appends the new one. -/
theorem timeSeries_fifo_eviction_witness :
    updatePriceData "new" (fun k => if k = "bitcoin"
        then some ⟨List.replicate 120 "old", List.replicate 120 (some 1), false⟩
        else none) "bitcoin" (some 2) false "bitcoin"
      = some ⟨(List.replicate 120 "old").drop 1 ++ ["new"],
          (List.replicate 120 (some (1 : Rat))).drop 1 ++ [some 2], false⟩ := by
  have h := timeSeries_fifo_eviction "new"
    (fun k => if k = "bitcoin"
      then some ⟨List.replicate 120 "old", List.replicate 120 (some 1), false⟩
      else none) "bitcoin" (some 2) false
    ⟨List.replicate 120 "old", List.replicate 120 (some 1), false⟩
    (by simp) (by simp) (by simp)
  simpa using h

/-- C9 (frame effect): a call to `updatePriceData` for one coin id leaves
the entry of every other coin id unchanged. -/
theorem updatePriceData_frame (tl : String) (pm : PriceMap) (cid k : String)
    (p : Option Rat) (err : Bool) (hk : k ≠ cid) :
    updatePriceData tl pm cid p err k = pm k := by
  simp [updatePriceData, hk]

/-- Witness for C9: updating "bitcoin" leaves "ethereum" untouched. -/
theorem updatePriceData_frame_witness :
    updatePriceData "10:00:00" initialPriceData "bitcoin" (some 100) false "ethereum"
      = initialPriceData "ethereum" :=
  updatePriceData_frame "10:00:00" initialPriceData "bitcoin" "ethereum"
    (some 100) false (by decide)

/-- C10: after any append, the stored entry's error flag equals the error
status of that append alone, regardless of the previous flag. -/
theorem updatePriceData_error_flag (tl : String) (pm : PriceMap) (cid : String)
    (p : Option Rat) (err : Bool) :
    (updatePriceData tl pm cid p err cid).map PriceEntry.error = some err := by
  simp [updatePriceData]

/-- A Suggestion: a matched coin descriptor built by the search effect, or
the `{ notFound: true }` sentinel (App.js lines 74-81). -/
inductive Suggestion where
  | found (c : Coin)
  | notFound
deriving DecidableEq, Repr

/-- The `defaultCoins` seed list (App.js lines 10-14). -/
def defaultCoins : List Coin :=
  [⟨"bitcoin", "Bitcoin", "BTC"⟩, ⟨"ethereum", "Ethereum", "ETH"⟩, ⟨"solana", "Solana", "SOL"⟩]

/-- The pieces of App state the selection/search claims are about
(App.js lines 16-20).  `priceData` is kept separately as `PriceMap`. -/
structure AppState where
  coins : List Coin
  activeCoin : String
  searchQuery : String
  suggestions : List Suggestion
deriving DecidableEq, Repr

/-- The initial state: `useState(defaultCoins)`, `useState(defaultCoins[0].id)`,
empty query, empty suggestions (App.js lines 16-20). -/
def initState : AppState :=
  { coins := defaultCoins
    activeCoin := (defaultCoins.get ⟨0, by decide⟩).id
    searchQuery := ""
    suggestions := [] }

/-- `addCoin` (App.js lines 91-98): append the candidate unless a member
shares its id; unconditionally select it and clear query and suggestions. -/
def addCoin (s : AppState) (coin : Coin) : AppState :=
  { coins :=
      if (s.coins.find? (fun c => c.id == coin.id)).isSome then s.coins
      else s.coins ++ [coin]
    activeCoin := coin.id
    searchQuery := ""
    suggestions := [] }

/-- Clicking a coin-selector button: `setActiveCoin(coin.id)` (App.js line 108);
the buttons are rendered only for members of `coins` (App.js line 104). -/
def selectCoin (s : AppState) (coin : Coin) : AppState :=
  { s with activeCoin := coin.id }

/-- One user-driven transition: adding a coin (from a suggestion, so the
candidate is arbitrary) or selecting a tracked coin via its button. -/
inductive Step : AppState → AppState → Prop
  | add (s : AppState) (coin : Coin) : Step s (addCoin s coin)
  | select (s : AppState) (coin : Coin) (h : coin ∈ s.coins) : Step s (selectCoin s coin)

/-- States reachable from the initial state by add/select operations. -/
inductive Reachable : AppState → Prop
  | init : Reachable initState
  | step (s t : AppState) (hs : Reachable s) (hst : Step s t) : Reachable t

/-- C3: `addCoin` appends the candidate only when no member shares its id
(adding a present coin leaves the set unchanged), and in every case selects
the candidate and clears the query and suggestion list. -/
theorem addCoin_spec (s : AppState) (coin : Coin) :
    ((∃ c ∈ s.coins, c.id = coin.id) → (addCoin s coin).coins = s.coins) ∧
    ((∀ c ∈ s.coins, c.id ≠ coin.id) → (addCoin s coin).coins = s.coins ++ [coin]) ∧
    (addCoin s coin).activeCoin = coin.id ∧
    (addCoin s coin).searchQuery = "" ∧
    (addCoin s coin).suggestions = [] := by
  refine ⟨?_, ?_, rfl, rfl, rfl⟩
  · rintro ⟨c, hc, hid⟩
    have : (s.coins.find? (fun c => c.id == coin.id)).isSome := by
      rw [List.find?_isSome]
      exact ⟨c, hc, by simpa using hid⟩
    simp [addCoin, this]
  · intro hnone
    have : s.coins.find? (fun c => c.id == coin.id) = none := by
      rw [List.find?_eq_none]
      intro c hc
      simpa using hnone c hc
    simp [addCoin, this]

/-- Witness for C3: adding the already-present bitcoin leaves the set
unchanged, and adding a fresh coin appends it; both select and clear. -/
theorem addCoin_spec_witness :
    (addCoin initState ⟨"bitcoin", "Bitcoin", "BTC"⟩).coins = initState.coins ∧
    (addCoin initState ⟨"dogecoin", "Dogecoin", "DOGE"⟩).coins
      = initState.coins ++ [⟨"dogecoin", "Dogecoin", "DOGE"⟩] ∧
    (addCoin initState ⟨"bitcoin", "Bitcoin", "BTC"⟩).activeCoin = "bitcoin" ∧
    (addCoin initState ⟨"bitcoin", "Bitcoin", "BTC"⟩).searchQuery = "" ∧
    (addCoin initState ⟨"bitcoin", "Bitcoin", "BTC"⟩).suggestions = [] := by
  refine ⟨(addCoin_spec initState ⟨"bitcoin", "Bitcoin", "BTC"⟩).1
      ⟨⟨"bitcoin", "Bitcoin", "BTC"⟩, by decide, rfl⟩,
    (addCoin_spec initState ⟨"dogecoin", "Dogecoin", "DOGE"⟩).2.1 (by decide), ?_, ?_, ?_⟩
  · exact (addCoin_spec initState ⟨"bitcoin", "Bitcoin", "BTC"⟩).2.2.1
  · exact (addCoin_spec initState ⟨"bitcoin", "Bitcoin", "BTC"⟩).2.2.2.1
  · exact (addCoin_spec initState ⟨"bitcoin", "Bitcoin", "BTC"⟩).2.2.2.2

/-- The C8 invariant: coin ids are pairwise distinct and the active
selection is the id of a tracked coin. -/
def stateOk (s : AppState) : Prop :=
  (s.coins.map Coin.id).Nodup ∧ s.activeCoin ∈ s.coins.map Coin.id

theorem stateOk_addCoin (s : AppState) (coin : Coin) (h : stateOk s) :
    stateOk (addCoin s coin) := by
  obtain ⟨hnd, _⟩ := h
  by_cases hf : (s.coins.find? (fun c => c.id == coin.id)).isSome
  · obtain ⟨c, hc, hcid⟩ := List.find?_isSome.mp hf
    have hcid' : c.id = coin.id := by simpa using hcid
    refine ⟨by simpa [addCoin, hf] using hnd, ?_⟩
    simp only [addCoin, hf, if_true]
    exact hcid' ▸ List.mem_map_of_mem Coin.id hc
  · have hnone : s.coins.find? (fun c => c.id == coin.id) = none := by
      cases hv : s.coins.find? (fun c => c.id == coin.id) with
      | none => rfl
      | some c => exact absurd (by simp [hv]) hf
    have hforall : ∀ c ∈ s.coins, ¬c.id = coin.id := by
      intro c hc
      simpa using List.find?_eq_none.mp hnone c hc
    constructor
    · simp only [addCoin, hf, if_false, List.map_append]
      simpa [List.nodup_append] using ⟨hnd, hforall⟩
    · simp [addCoin, hf]

theorem stateOk_selectCoin (s : AppState) (coin : Coin) (hmem : coin ∈ s.coins)
    (h : stateOk s) : stateOk (selectCoin s coin) :=
  ⟨h.1, List.mem_map_of_mem Coin.id hmem⟩

/-- C8: in every reachable state (initial state and after any sequence of
add and select operations) the Tracked Coin Set has no two members with
the same id, and the Active Selection is the id of some member. -/
theorem reachable_stateOk (s : AppState) (h : Reachable s) :
    (s.coins.map Coin.id).Nodup ∧ s.activeCoin ∈ s.coins.map Coin.id := by
  induction h with
  | init => exact ⟨by decide, by decide⟩
  | step s t hs hst ih =>
    cases hst with
    | add coin => exact stateOk_addCoin s coin ih
    | select coin hmem => exact stateOk_selectCoin s coin hmem ih

/-- Witness for C8: the state after adding dogecoin and selecting ethereum
is reachable and satisfies the invariant. -/
theorem reachable_stateOk_witness :
    ((selectCoin (addCoin initState ⟨"dogecoin", "Dogecoin", "DOGE"⟩)
        ⟨"ethereum", "Ethereum", "ETH"⟩).coins.map Coin.id).Nodup ∧
    (selectCoin (addCoin initState ⟨"dogecoin", "Dogecoin", "DOGE"⟩)
        ⟨"ethereum", "Ethereum", "ETH"⟩).activeCoin
      ∈ (selectCoin (addCoin initState ⟨"dogecoin", "Dogecoin", "DOGE"⟩)
        ⟨"ethereum", "Ethereum", "ETH"⟩).coins.map Coin.id :=
  reachable_stateOk _
    (Reachable.step _ _
      (Reachable.step _ _ Reachable.init (Step.add initState ⟨"dogecoin", "Dogecoin", "DOGE"⟩))
      (Step.select _ ⟨"ethereum", "Ethereum", "ETH"⟩ (by decide)))

/-- The nested payload `data.data` of a spot-price response body: its
`amount` field may be absent. -/
structure SpotData where
  amount : Option String
deriving DecidableEq, Repr

/-- A parsed spot-price response body: its `data` field may be absent. -/
structure SpotBody where
  data : Option SpotData
deriving DecidableEq, Repr

/-- The outcome of a spot-price fetch: a parsed JSON body (possibly the
falsy `null`), or a network/JSON failure landing in `.catch`. -/
inductive FetchOutcome where
  | response (body : Option SpotBody)
  | failure
deriving DecidableEq, Repr

/-- JS truthiness of a string: truthy iff nonempty. -/
def jsTruthy (s : String) : Bool := s ≠ ""

/-- The spot-price request URL (App.js line 25), one per `fetchPrice` call. -/
def spotUrl (coin : Coin) : String :=
  "https://api.coinbase.com/v2/prices/" ++ coin.ticker.toUpper ++ "-USD/spot"

/-- The requests a single `fetchPrice` call issues: exactly the one
`fetch` at App.js line 25; no retry happens within the call. -/
def fetchPriceRequests (coin : Coin) : List String := [spotUrl coin]

/-- `fetchPrice` (App.js lines 23-39), as the state update performed once
the fetch settles with `outcome`.  `parseFloat` abstracts JS
`parseFloat`, whose numeric behaviour no claim depends on.  The success
branch requires `data && data.data && data.data.amount` to be truthy. -/
def fetchPrice (parseFloat : String → Rat) (timeLabel : String) (coin : Coin)
    (outcome : FetchOutcome) (prev : PriceMap) : PriceMap :=
  match outcome with
  | .response (some body) =>
    match body.data with
    | some d =>
      match d.amount with
      | some a =>
        if jsTruthy a then updatePriceData timeLabel prev coin.id (some (parseFloat a)) false
        else updatePriceData timeLabel prev coin.id none true
      | none => updatePriceData timeLabel prev coin.id none true
    | none => updatePriceData timeLabel prev coin.id none true
  | .response none => updatePriceData timeLabel prev coin.id none true
  | .failure => updatePriceData timeLabel prev coin.id none true

/-- An outcome lacking the expected nested amount field: a network/parse
failure, or a body in which `data` or `data.data.amount` is absent. -/
def amountMissing : FetchOutcome → Bool
  | .failure => true
  | .response none => true
  | .response (some body) =>
    match body.data with
    | none => true
    | some d => d.amount.isNone

/-- C4: whenever the spot-price response lacks the expected nested amount
field, or the fetch fails, `fetchPrice` performs exactly the error append
(a `null` value with the error flag) on that coin's entry — it is a total
function, so nothing is thrown — and it issues exactly one request, so no
retry occurs within the polling cycle. -/
theorem fetchPrice_error_append (parseFloat : String → Rat) (tl : String)
    (coin : Coin) (o : FetchOutcome) (prev : PriceMap)
    (h : amountMissing o = true) :
    fetchPrice parseFloat tl coin o prev = updatePriceData tl prev coin.id none true ∧
    fetchPrice parseFloat tl coin o prev coin.id
      = some ⟨sliceLast maxDataPoints
            (((prev coin.id).getD ⟨[], [], false⟩).labels ++ [tl]),
          sliceLast maxDataPoints
            (((prev coin.id).getD ⟨[], [], false⟩).data ++ [none]), true⟩ ∧
    (fetchPriceRequests coin).length = 1 := by
  have heq : fetchPrice parseFloat tl coin o prev = updatePriceData tl prev coin.id none true := by
    match o with
    | .failure => rfl
    | .response none => rfl
    | .response (some body) =>
      match hb : body.data with
      | none => simp [fetchPrice, hb]
      | some d =>
        have : d.amount = none := by
          simpa [amountMissing, hb, Option.isNone_iff_eq_none] using h
        simp [fetchPrice, hb, this]
  refine ⟨heq, ?_, rfl⟩
  rw [heq]
  simp [updatePriceData]

/-- Witness for C4: a response whose nested payload has no `amount` field
produces the error append on bitcoin's entry, with one request issued. -/
theorem fetchPrice_error_append_witness :
    fetchPrice (fun _ => 0) "10:00:00" ⟨"bitcoin", "Bitcoin", "BTC"⟩
        (.response (some ⟨some ⟨none⟩⟩)) initialPriceData
      = updatePriceData "10:00:00" initialPriceData "bitcoin" none true ∧
    fetchPrice (fun _ => 0) "10:00:00" ⟨"bitcoin", "Bitcoin", "BTC"⟩
        (.response (some ⟨some ⟨none⟩⟩)) initialPriceData "bitcoin"
      = some ⟨sliceLast maxDataPoints
            (((initialPriceData "bitcoin").getD ⟨[], [], false⟩).labels ++ ["10:00:00"]),
          sliceLast maxDataPoints
            (((initialPriceData "bitcoin").getD ⟨[], [], false⟩).data ++ [none]), true⟩ ∧
    (fetchPriceRequests ⟨"bitcoin", "Bitcoin", "BTC"⟩).length = 1 :=
  fetchPrice_error_append (fun _ => 0) "10:00:00" ⟨"bitcoin", "Bitcoin", "BTC"⟩
    (.response (some ⟨some ⟨none⟩⟩)) initialPriceData (by decide)

/-- A coin object `{id, name, symbol}` from the search endpoint's `coins`
array (App.js lines 74-78). -/
structure SearchCoin where
  id : String
  name : String
  symbol : String
deriving DecidableEq, Repr

/-- A parsed search response body: its `coins` field may be absent. -/
structure SearchBody where
  coins : Option (List SearchCoin)
deriving DecidableEq, Repr

/-- The outcome of a search fetch: a parsed body (possibly `null`), or a
network/JSON failure landing in `.catch`. -/
inductive SearchOutcome where
  | response (body : Option SearchBody)
  | failure
deriving DecidableEq, Repr

/-- The search request URL (App.js line 70). -/
def searchUrl (query : String) : String :=
  "https://api.coingecko.com/api/v3/search?query=" ++ query

/-- The mapping of an upstream coin into a Suggestion descriptor
(App.js lines 74-78): keep id and name, uppercase the symbol as ticker. -/
def toSuggestion (c : SearchCoin) : Suggestion :=
  .found ⟨c.id, c.name, c.symbol.toUpper⟩

/-- The search `useEffect` (App.js lines 65-88) for one query value:
returns the new suggestion state together with the list of requests
issued.  An empty (falsy) query clears suggestions and returns before any
fetch; otherwise one request is issued and the response is mapped, with
`data && data.coins && data.coins.length > 0` guarding the success path. -/
def searchEffect (query : String) (outcome : SearchOutcome) :
    List Suggestion × List String :=
  if query = "" then ([], [])
  else
    let requests := [searchUrl query]
    match outcome with
    | .response (some body) =>
      match body.coins with
      | some cs =>
        if cs.length > 0 then ((cs.map toSuggestion).take 5, requests)
        else ([.notFound], requests)
      | none => ([.notFound], requests)
    | .response none => ([.notFound], requests)
    | .failure => ([.notFound], requests)

/-- C7: for the empty query, the suggestion list becomes empty with no
search request issued, whatever the ambient fetch outcome would be. -/
theorem searchEffect_empty_query (outcome : SearchOutcome) :
    searchEffect "" outcome = ([], []) := rfl

/-- C6: for a non-empty query, a response with zero coins — and a request
failure — each set the suggestion state to exactly the one not-found
sentinel, which differs from the empty list of the no-query state; a
response with more than five coins sets it to exactly five descriptors,
each carrying the upstream id, name, and uppercased symbol as ticker. -/
theorem searchEffect_results (q : String) (hq : q ≠ "") :
    (searchEffect q (.response (some ⟨some []⟩))).1 = [.notFound] ∧
    (searchEffect q .failure).1 = [.notFound] ∧
    [Suggestion.notFound] ≠ ([] : List Suggestion) ∧
    ∀ cs : List SearchCoin, 5 < cs.length →
      (searchEffect q (.response (some ⟨some cs⟩))).1
          = (cs.take 5).map (fun c => .found ⟨c.id, c.name, c.symbol.toUpper⟩) ∧
        (searchEffect q (.response (some ⟨some cs⟩))).1.length = 5 := by
  refine ⟨by simp [searchEffect, hq], by simp [searchEffect, hq], by simp, ?_⟩
  intro cs hcs
  have hpos : cs.length > 0 := by omega
  constructor
  · simp only [searchEffect, hq, if_false, hpos, if_true]
    rw [← List.map_take]
    rfl
  · simp only [searchEffect, hq, if_false, hpos, if_true]
    simp only [List.length_take, List.length_map]
    omega

/-- Witness for C6: with query "doge", the empty response and the failure
give the single sentinel, and a concrete 7-coin response gives exactly the
first five descriptors, uppercased. -/
theorem searchEffect_results_witness :
    (searchEffect "doge" (.response (some ⟨some []⟩))).1 = [.notFound] ∧
    (searchEffect "doge" .failure).1 = [.notFound] ∧
    [Suggestion.notFound] ≠ ([] : List Suggestion) ∧
    (5 < ([⟨"a", "A", "aa"⟩, ⟨"b", "B", "bb"⟩, ⟨"c", "C", "cc"⟩, ⟨"d", "D", "dd"⟩,
        ⟨"e", "E", "ee"⟩, ⟨"f", "F", "ff"⟩, ⟨"g", "G", "gg"⟩] : List SearchCoin).length) ∧
    (searchEffect "doge" (.response (some ⟨some [⟨"a", "A", "aa"⟩, ⟨"b", "B", "bb"⟩,
        ⟨"c", "C", "cc"⟩, ⟨"d", "D", "dd"⟩, ⟨"e", "E", "ee"⟩, ⟨"f", "F", "ff"⟩,
        ⟨"g", "G", "gg"⟩]⟩))).1
      = (([⟨"a", "A", "aa"⟩, ⟨"b", "B", "bb"⟩, ⟨"c", "C", "cc"⟩, ⟨"d", "D", "dd"⟩,
        ⟨"e", "E", "ee"⟩, ⟨"f", "F", "ff"⟩, ⟨"g", "G", "gg"⟩] : List SearchCoin).take 5).map
          (fun c => .found ⟨c.id, c.name, c.symbol.toUpper⟩) ∧
    (searchEffect "doge" (.response (some ⟨some [⟨"a", "A", "aa"⟩, ⟨"b", "B", "bb"⟩,
        ⟨"c", "C", "cc"⟩, ⟨"d", "D", "dd"⟩, ⟨"e", "E", "ee"⟩, ⟨"f", "F", "ff"⟩,
        ⟨"g", "G", "gg"⟩]⟩))).1.length = 5 := by
  have h := searchEffect_results "doge" (by decide)
  have h5 := h.2.2.2 [⟨"a", "A", "aa"⟩, ⟨"b", "B", "bb"⟩, ⟨"c", "C", "cc"⟩, ⟨"d", "D", "dd"⟩,
      ⟨"e", "E", "ee"⟩, ⟨"f", "F", "ff"⟩, ⟨"g", "G", "gg"⟩] (by decide)
  exact ⟨h.1, h.2.1, h.2.2.1, by decide, h5.1, h5.2⟩

/-- A candle `[ time, low, high, open, close, volume ]` (App.js line 176),
modelled as a 6-tuple of rationals; the first component is the timestamp. -/
abbrev Candle := Rat × Rat × Rat × Rat × Rat × Rat

/-- The comparator `(a, b) => a[0] - b[0]` (App.js line 178) orders
candles ascending by their first tuple element; JS `Array.prototype.sort`
is stable, embedded as a stable sort with the matching `≤` test. -/
def sortCandles (l : List Candle) : List Candle :=
  l.insertionSort (fun a b => a.1 ≤ b.1)

/-- The `CoinPanel` OHLC state: `ohlcData`, `ohlcLoading`,
`ohlcAvailable` (App.js lines 159-161). -/
structure OhlcState where
  ohlcData : List Candle
  ohlcLoading : Bool
  ohlcAvailable : Bool
deriving Repr

/-- The initial OHLC state: `useState([])`, `useState(true)`,
`useState(true)` (App.js lines 159-161). -/
def initOhlc : OhlcState := { ohlcData := [], ohlcLoading := true, ohlcAvailable := true }

/-- The outcome of a candle-history fetch: a parsed body (`some` when
`Array.isArray(data)` holds, `none` otherwise), or a failure in `.catch`. -/
inductive CandleOutcome where
  | response (data : Option (List Candle))
  | failure
deriving Repr

/-- The history `useEffect` handler (App.js lines 172-190) for one settled
fetch: a non-empty array is sorted ascending by timestamp and stored with
`ohlcAvailable := true`; anything else only clears availability; loading
always ends. -/
def handleCandles (outcome : CandleOutcome) (s : OhlcState) : OhlcState :=
  match outcome with
  | .response (some data) =>
    if data.length > 0 then
      { ohlcData := sortCandles data, ohlcLoading := false, ohlcAvailable := true }
    else { s with ohlcLoading := false, ohlcAvailable := false }
  | .response none => { s with ohlcLoading := false, ohlcAvailable := false }
  | .failure => { s with ohlcLoading := false, ohlcAvailable := false }

theorem sortCandles_pairwise (l : List Candle) :
    List.Pairwise (fun a b : Candle => a.1 ≤ b.1) (sortCandles l) := by
  haveI : IsTotal Candle (fun a b : Candle => a.1 ≤ b.1) := ⟨fun a b => le_total a.1 b.1⟩
  haveI : IsTrans Candle (fun a b : Candle => a.1 ≤ b.1) :=
    ⟨fun a b c hab hbc => le_trans hab hbc⟩
  exact List.sorted_insertionSort _ l

theorem sortCandles_perm (l : List Candle) : (sortCandles l).Perm l :=
  List.perm_insertionSort _ l

/-- C5: for every non-empty candle array, the stored sequence is the input
sorted ascending by the first tuple element — sorted, and a rearrangement
of the input — and in particular the two-candle response with timestamps
200 then 100 is stored as the timestamp-100 candle then the
timestamp-200 candle. -/
theorem handleCandles_sorts (l : List Candle) (s : OhlcState) (h : l ≠ []) :
    (handleCandles (.response (some l)) s).ohlcData = sortCandles l ∧
    List.Pairwise (fun a b : Candle => a.1 ≤ b.1) (sortCandles l) ∧
    (sortCandles l).Perm l ∧
    (handleCandles (.response (some [(200, 1, 2, 1.5, 1.8, 10), (100, 1, 2, 1.1, 1.4, 5)]))
        initOhlc).ohlcData
      = [(100, 1, 2, 1.1, 1.4, 5), (200, 1, 2, 1.5, 1.8, 10)] := by
  have hlen : l.length > 0 := List.length_pos.mpr h
  refine ⟨by simp [handleCandles, hlen], sortCandles_pairwise l, sortCandles_perm l, ?_⟩
  norm_num [handleCandles, sortCandles, List.insertionSort, List.orderedInsert]

/-- Witness for C5: the claim's concrete two-candle response is sorted to
start with timestamp 100 then 200. -/
theorem handleCandles_sorts_witness :
    (handleCandles (.response (some [(200, 1, 2, 1.5, 1.8, 10), (100, 1, 2, 1.1, 1.4, 5)]))
        initOhlc).ohlcData
      = sortCandles [(200, 1, 2, 1.5, 1.8, 10), (100, 1, 2, 1.1, 1.4, 5)] ∧
    List.Pairwise (fun a b : Candle => a.1 ≤ b.1)
      (sortCandles [(200, 1, 2, 1.5, 1.8, 10), (100, 1, 2, 1.1, 1.4, 5)]) ∧
    (sortCandles [(200, 1, 2, 1.5, 1.8, 10), (100, 1, 2, 1.1, 1.4, 5)]).Perm
      [(200, 1, 2, 1.5, 1.8, 10), (100, 1, 2, 1.1, 1.4, 5)] ∧
    (handleCandles (.response (some [(200, 1, 2, 1.5, 1.8, 10), (100, 1, 2, 1.1, 1.4, 5)]))
        initOhlc).ohlcData
      = [(100, 1, 2, 1.1, 1.4, 5), (200, 1, 2, 1.5, 1.8, 10)] :=
  handleCandles_sorts [(200, 1, 2, 1.5, 1.8, 10), (100, 1, 2, 1.1, 1.4, 5)] initOhlc
    (by decide)

end CryptoDash
